import Mathlib

/-!
Shallow embedding of the live regex-detection and match-highlighting engine of
the vscode-regex extension (src/extension.ts and src/RegexMatchDecorator.ts).

Strings are modelled as `List Char`.  The three scanner regexes
(regexRegex, phpRegexRegex, haxeRegexRegex) are embedded as a backtracking
matcher that explores alternatives and greedy quantifiers in exactly the order
the host engine's backtracking does; a parse step returns the list of
(consumed, remaining) splits in preference order and the overall match takes
the first complete parse.  The host pattern engine used by createRegex and by
RegExp.exec in findMatches is external to the repository; it is modelled by
explicit oracle parameters (a compile oracle and a search oracle), with small
concrete oracles for the concrete patterns appearing in the spec scenarios.
-/

namespace RegexPreview


/-- Whitespace characters of the host engine's whitespace class
(the ASCII subset, which suffices for the texts considered here). -/
def isWsChar (c : Char) : Bool :=
  c == ' ' || c == '\t' || c == '\n' || c == '\r' || c == '\x0b' || c == '\x0c'

/-- The punctuation alternative of the boundary class [()={},:?;]
shared by all three scanner regexes. -/
def isBoundaryPunct (c : Char) : Bool :=
  c == '(' || c == ')' || c == '=' || c == '{' || c == '}' ||
  c == ',' || c == ':' || c == '?' || c == ';'

/-- The three lexical grammars: regexRegex (std, the default),
phpRegexRegex (php) and haxeRegexRegex (haxe). -/
inductive Dialect where
  | std
  | php
  | haxe
deriving DecidableEq

/-- Flag charset: [gimuy] for std and php, [gimsu] for haxe. -/
def isFlagChar : Dialect → Char → Bool
  | .haxe, c => c == 'g' || c == 'i' || c == 'm' || c == 's' || c == 'u'
  | _, c => c == 'g' || c == 'i' || c == 'm' || c == 'u' || c == 'y'

/-- Trailing boundary punctuation; the haxe regex additionally allows a dot:
[.()={},:?;]. -/
def isTrailPunct (d : Dialect) (c : Char) : Bool :=
  isBoundaryPunct c || (d == .haxe && c == '.')

/-- The character class ['|"] that phpRegexRegex puts on both sides of the
literal: it contains the single quote, the pipe and the double quote. -/
def isQuoteChar (c : Char) : Bool :=
  c == '\'' || c == '|' || c == '"'

/-- Backtracking parses of one sub-pattern: (consumed, remaining) splits, in
the order the host engine's backtracking explores them. -/
abbrev Parses := List (List Char × List Char)

/-- Match one character satisfying p. -/
def charClassP (p : Char → Bool) : List Char → Parses
  | [] => []
  | c :: cs => if p c then [([c], cs)] else []

/-- Match one fixed character. -/
def charP (c : Char) : List Char → Parses :=
  charClassP (fun x => x == c)

/-- Greedy star of characters other than a closing bracket (the inner part of
the bracketed-class alternative), longest parse preferred. -/
def classInner : List Char → Parses
  | [] => [([], [])]
  | c :: cs =>
    if c == ']' then [([], c :: cs)]
    else (classInner cs).map (fun p => (c :: p.1, p.2)) ++ [([], c :: cs)]

/-- One body element, alternatives in source order: an escaped slash, a
bracketed character class, or any other non-slash character. -/
def bodyElem (cs : List Char) : Parses :=
  (match cs with
   | '\\' :: '/' :: rest => [(['\\', '/'], rest)]
   | _ => []) ++
  (match cs with
   | '[' :: rest =>
     (classInner rest).flatMap (fun p =>
       match p.2 with
       | ']' :: rest2 => [('[' :: (p.1 ++ [']']), rest2)]
       | _ => [])
   | _ => []) ++
  (match cs with
   | c :: rest => if c == '/' then [] else [([c], rest)]
   | [] => [])

/-- Greedy plus of body elements, continuation preferred over stopping.
Every body element consumes at least one character, so fuel equal to the
remaining length bounds the iteration depth exactly. -/
def bodyPlus : Nat → List Char → Parses
  | 0, _ => []
  | fuel + 1, cs =>
    (bodyElem cs).flatMap (fun p =>
      ((bodyPlus fuel p.2).map (fun q => (p.1 ++ q.1, q.2))) ++ [p])

/-- Greedy star over a single-character class, longest parse preferred. -/
def charStar (p : Char → Bool) : List Char → Parses
  | [] => [([], [])]
  | c :: cs =>
    if p c then (charStar p cs).map (fun q => (c :: q.1, q.2)) ++ [([], c :: cs)]
    else [([], c :: cs)]

/-- Leading boundary: start-of-line, whitespace, or boundary punctuation.
The start-of-line alternative matches the empty string and only at offset 0
(the scanner regexes carry no multiline flag). -/
def leadBoundary (atStart : Bool) (cs : List Char) : Parses :=
  (if atStart then [(([] : List Char), cs)] else []) ++
  (match cs with
   | c :: rest =>
     (if isWsChar c then [([c], rest)] else []) ++
     (if isBoundaryPunct c then [([c], rest)] else [])
   | [] => [])

/-- Trailing boundary: whitespace, trailing punctuation, or end-of-line. -/
def trailBoundary (d : Dialect) (cs : List Char) : Parses :=
  (match cs with
   | c :: rest =>
     (if isWsChar c then [([c], rest)] else []) ++
     (if isTrailPunct d c then [([c], rest)] else [])
   | [] => []) ++
  (match cs with
   | [] => [([], ([] : List Char))]
   | _ => [])

/-- php: one character of the ['|"] class; other dialects: nothing. -/
def quoteIf : Dialect → List Char → Parses
  | .php, cs => charClassP isQuoteChar cs
  | _, cs => [([], cs)]

/-- haxe: the sigil before the opening delimiter; other dialects: nothing. -/
def sigilIf : Dialect → List Char → Parses
  | .haxe, cs => charP '~' cs
  | _, cs => [([], cs)]

/-- One match of a scanner regex: index, group 1 (the leading boundary),
group 2 (the delimiter-to-flags text, which includes the haxe sigil but not
the php quotes), group 3 (the pattern), group 4 (the flags), and the full
matched text m0. -/
structure ScanCand where
  index : Nat
  g1 : List Char
  g2 : List Char
  pattern : List Char
  flags : List Char
  m0 : List Char
deriving DecidableEq

/-- Attempt the scanner regex anchored at offset s; the first complete parse
in backtracking order is the host engine's match at that offset. -/
def matchAtPos (d : Dialect) (text : List Char) (s : Nat) : Option ScanCand :=
  ((leadBoundary (s == 0) (text.drop s)).flatMap (fun b1 =>
    (quoteIf d b1.2).flatMap (fun q1 =>
    (sigilIf d q1.2).flatMap (fun sg =>
    (charP '/' sg.2).flatMap (fun o =>
    (bodyPlus o.2.length o.2).flatMap (fun bd =>
    (charP '/' bd.2).flatMap (fun c2 =>
    (charStar (isFlagChar d) c2.2).flatMap (fun fl =>
    (quoteIf d fl.2).flatMap (fun q2 =>
    (trailBoundary d q2.2).map (fun tr =>
      { index := s, g1 := b1.1,
        g2 := sg.1 ++ o.1 ++ bd.1 ++ c2.1 ++ fl.1,
        pattern := bd.1, flags := fl.1,
        m0 := b1.1 ++ q1.1 ++ sg.1 ++ o.1 ++ bd.1 ++ c2.1 ++ fl.1 ++ q2.1 ++ tr.1 })))))))))).head?

def execFromAux (d : Dialect) (text : List Char) : Nat → Nat → Option ScanCand
  | 0, s => matchAtPos d text s
  | n + 1, s =>
    match matchAtPos d text s with
    | some m => some m
    | none => execFromAux d text n (s + 1)

/-- exec on a global scanner regex with lastIndex = pos: the leftmost match
whose index is at least pos, or null once lastIndex passes the end. -/
def execFrom (d : Dialect) (text : List Char) (pos : Nat) : Option ScanCand :=
  if pos ≤ text.length then execFromAux d text (text.length - pos) pos else none

def scanFromAux (d : Dialect) (text : List Char) : Nat → Nat → List ScanCand
  | 0, _ => []
  | fuel + 1, pos =>
    match execFrom d text pos with
    | none => []
    | some m => m :: scanFromAux d text fuel (m.index + m.m0.length)

/-- All successive exec matches of the scanner regex over a line, in order
(the while-exec loops of findRegexes and findRegexAtCaret, starting from
lastIndex = 0).  Every match consumes at least three characters, so fuel
length + 1 covers every iteration the host loop can perform. -/
def scanLine (d : Dialect) (text : List Char) : List ScanCand :=
  scanFromAux d text (text.length + 1) 0

/-- Dialect selection keyed on the language identifier (getRegexRegex). -/
def getRegexRegex (languageId : String) : Dialect :=
  if languageId == "haxe" then .haxe
  else if languageId == "php" then .php
  else .std

-- scratch checks (to be removed)

/-- The caret loop of findRegexAtCaret over the successive exec matches:
advance while the match's end of group 2 is left of the caret; on the first
match whose group-2 end is at or past the caret, return it when its group-2
start is at or before the caret, otherwise return nothing. -/
def caretPick (cands : List ScanCand) (caret : Nat) : Option ScanCand :=
  match cands.find? (fun m => !(m.index + m.g1.length + m.g2.length < caret : Bool)) with
  | some m => if m.index + m.g1.length ≤ caret then some m else none
  | none => none

/-- A candidate's occupied delimiter-to-flags range straddles the caret. -/
def straddles (caret : Nat) (m : ScanCand) : Bool :=
  (m.index + m.g1.length ≤ caret) && (caret ≤ m.index + m.g1.length + m.g2.length)

/-- A compiled host regular expression: createRegex keeps the source and the
flags; the host object carries no further state used by this code
(lastIndex is modelled explicitly in the evaluation loop). -/
structure JSRegexp where
  source : List Char
  flags : List Char
deriving DecidableEq

/-- The host global accessor: the flags contain g. -/
def JSRegexp.global (r : JSRegexp) : Bool := r.flags.contains 'g'

/-- The host multiline accessor: the flags contain m. -/
def JSRegexp.multiline (r : JSRegexp) : Bool := r.flags.contains 'm'

/-- addGM from RegexMatchDecorator.ts: when enabled and a flag is missing,
derive a fresh regex from the same source with g and m appended as needed;
otherwise return the regex unchanged.  (The embedding is pure, so the
original value is never mutated, as in the source where a new RegExp is
constructed.) -/
def addGM (regex : JSRegexp) (addGMEnabled : Bool) : JSRegexp :=
  if !addGMEnabled || (regex.global && regex.multiline) then regex
  else
    { source := regex.source,
      flags := (regex.flags ++ (if !regex.global then ['g'] else [])) ++
        (if !regex.multiline then ['m'] else []) }

/-- The exec loop of findMatches, with the host search modelled as an oracle
from a start offset to the leftmost match (index, length) at or after it.
State: remaining fuel, the regex's lastIndex, the accumulated spans.
A non-global regex always searches from offset 0 and the loop condition
(regex.global or no match yet) stops it after one match; a global regex
searches from lastIndex, which exec sets to the match end, and the zero-width
guard bumps lastIndex by one when the match was empty. -/
def findMatchesGo (search : Nat → Option (Nat × Nat)) (isGlobal : Bool) :
    Nat → Nat → List (Nat × Nat) → List (Nat × Nat)
  | 0, _, acc => acc
  | fuel + 1, li, acc =>
    if isGlobal || acc.isEmpty then
      match search (if isGlobal then li else 0) with
      | none => acc
      | some (i, l) =>
        let li2 := if isGlobal then i + l else li
        let li3 := if li2 == i then li2 + 1 else li2
        findMatchesGo search isGlobal fuel li3 (acc ++ [(i, i + l)])
    else acc

/-- Match spans (as offset pairs) produced by the findMatches loop on a text
of the given length.  Fuel textLen + 2 covers every iteration the loop can
perform against a well-behaved host search (theorem c7). -/
def findMatchesOffsets (search : Nat → Option (Nat × Nat)) (isGlobal : Bool)
    (textLen : Nat) : List (Nat × Nat) :=
  findMatchesGo search isGlobal (textLen + 2) 0 []

/-- A well-behaved host search on a text of length textLen: a reported match
starts at or after the query offset and ends within the text, and querying
past the end finds nothing. -/
def SaneSearch (search : Nat → Option (Nat × Nat)) (textLen : Nat) : Prop :=
  (∀ pos i l, search pos = some (i, l) → pos ≤ i ∧ i + l ≤ textLen) ∧
  (∀ pos, textLen < pos → search pos = none)

/-- Host search for the empty pattern (source //): an empty match at every
offset of the text, nothing past the end. -/
def emptySearch (textLen : Nat) (pos : Nat) : Option (Nat × Nat) :=
  if pos ≤ textLen then some (pos, 0) else none

/-- A document: identity (uri.fsPath), language identifier, text as lines. -/
structure Doc where
  fsPath : Nat
  languageId : String
  lines : List (List Char)
deriving DecidableEq

/-- getText: the lines joined by newlines. -/
def joinLines : List (List Char) → List Char
  | [] => []
  | [l] => l
  | l :: ls => l ++ '\n' :: joinLines ls

def Doc.getText (d : Doc) : List Char := joinLines d.lines

/-- positionAt: offset to (line, column), clamped to the end of the text. -/
def positionAtAux : List (List Char) → Nat → Nat → Nat × Nat
  | [], ln, _ => (ln, 0)
  | [l], ln, off => (ln, min off l.length)
  | l :: ls, ln, off =>
    if off ≤ l.length then (ln, off) else positionAtAux ls (ln + 1) (off - (l.length + 1))

def Doc.positionAt (d : Doc) (off : Nat) : Nat × Nat := positionAtAux d.lines 0 off

/-- A (line, column) range as used by the decorations and RegexMatch.range. -/
structure Range where
  sLine : Nat
  sCol : Nat
  eLine : Nat
  eCol : Nat
deriving DecidableEq

def mkRange (p q : Nat × Nat) : Range := ⟨p.1, p.2, q.1, q.2⟩

/-- RegexMatch from RegexMatchDecorator.ts: the source document (identified
by its fsPath), the compiled regex, and the literal's range in that document. -/
structure RegexMatch where
  docPath : Nat
  regex : JSRegexp
  range : Range
deriving DecidableEq

/-- The supported language identifiers. -/
def languages : List String :=
  ["javascript", "javascriptreact", "typescript", "typescriptreact", "vue", "php", "haxe"]

def isLanguageSupported (d : Doc) : Bool := languages.contains d.languageId

/-- createRegexMatch: compile the captured pattern and flags through the host
engine (createRegex, modelled by the compile oracle) and, on success, build
the RegexMatch whose range runs from match.index + group1 length over
group2 length columns; on failure return nothing. -/
def createRegexMatchModel (compileOk : List Char → List Char → Bool)
    (docPath lineNo : Nat) (m : ScanCand) : Option RegexMatch :=
  if compileOk m.pattern m.flags then
    some { docPath := docPath, regex := { source := m.pattern, flags := m.flags },
           range := ⟨lineNo, m.index + m.g1.length, lineNo,
             m.index + m.g1.length + m.g2.length⟩ }
  else none

def findRegexesLine (compileOk : List Char → List Char → Bool) (docPath : Nat)
    (d : Dialect) (lineNo : Nat) (lineText : List Char) : List RegexMatch :=
  (scanLine d (lineText.take 1000)).filterMap (createRegexMatchModel compileOk docPath lineNo)

/-- findRegexes: scan every line of the document, keeping the candidates the
host engine compiles. -/
def findRegexes (compileOk : List Char → List Char → Bool) (doc : Doc) : List RegexMatch :=
  doc.lines.enum.flatMap (fun p =>
    findRegexesLine compileOk doc.fsPath (getRegexRegex doc.languageId) p.1 p.2)

/-- A text editor (view): host identity, its document, its view column, and
the selection anchor. -/
structure Editor where
  id : Nat
  doc : Doc
  viewColumn : Option Nat
  caretLine : Nat
  caretCol : Nat
deriving DecidableEq

/-- findRegexAtCaret: scan the anchor's line (first 1000 characters), run the
caret loop, and on a straddling candidate build the RegexMatch through the
compile oracle. -/
def findRegexAtCaretE (compileOk : List Char → List Char → Bool)
    (ed : Editor) : Option RegexMatch :=
  let lineText := (ed.doc.lines.getD ed.caretLine []).take 1000
  match caretPick (scanLine (getRegexRegex ed.doc.languageId) lineText) ed.caretCol with
  | some m => createRegexMatchModel compileOk ed.doc.fsPath ed.caretLine m
  | none => none

/-- The two decoration layers the host keeps per editor: matchHighlight
(strong) and regexHighlight (weak); setDecorations replaces one layer. -/
structure DecState where
  matchSpans : List Range
  regexSpans : List Range
deriving DecidableEq

def DecState.empty : DecState := ⟨[], []⟩

/-- Host-side rendered decoration state, per editor id. -/
def getDec (r : List (Nat × DecState)) (id : Nat) : DecState :=
  match r.find? (fun p => p.1 == id) with
  | some p => p.2
  | none => DecState.empty

def setDec (r : List (Nat × DecState)) (id : Nat) (d : DecState) : List (Nat × DecState) :=
  if r.any (fun p => p.1 == id) then
    r.map (fun p => if p.1 == id then (id, d) else p)
  else r ++ [(id, d)]

/-- findMatches from RegexMatchDecorator.ts: run the (possibly augmented)
regex over the document's full text through the host search oracle and turn
the offset spans into ranges with positionAt. -/
def findMatches (exec : JSRegexp → List Char → Nat → Option (Nat × Nat))
    (regex : JSRegexp) (doc : Doc) (addGMEnabled : Bool) : List Range :=
  let text := doc.getText
  let r := addGM regex addGMEnabled
  (findMatchesOffsets (exec r text) r.global text.length).map
    (fun p => mkRange (doc.positionAt p.1) (doc.positionAt p.2))

/-- RegexMatchDecorator.update: with an active regex, when this editor is the
preview editor render the match layer, else when its document is the active
regex's source document render the weak layer, both from findMatches on this
editor's document; in every other case with an active regex the layers are
left untouched.  Without an active regex both layers are cleared. -/
def decoratorUpdate (exec : JSRegexp → List Char → Nat → Option (Nat × Nat))
    (ed : Editor) (activeRegex : Option RegexMatch) (editorURIPath : Nat)
    (addGMEnabled : Bool) (dec : DecState) : DecState :=
  match activeRegex with
  | some ar =>
    if ed.doc.fsPath == editorURIPath then
      { dec with matchSpans := findMatches exec ar.regex ed.doc addGMEnabled }
    else if ar.docPath == ed.doc.fsPath then
      { dec with regexSpans := findMatches exec ar.regex ed.doc addGMEnabled }
    else dec
  | none => DecState.empty

/-- The process-wide mutable state of extension.ts: the rendered decorations
(host side), the decorators map (tracked editors), the active regex, the
augmentation toggle, and the preview document's path (editorURI). -/
structure ExtState where
  rendered : List (Nat × DecState)
  decorators : List Editor
  activeRegex : Option RegexMatch
  addGMEnabled : Bool
  editorURIPath : Nat
deriving DecidableEq

/-- visibleTextEditors filtered to those with a numeric view column. -/
def getVisibleTextEditors (visible : List Editor) : List Editor :=
  visible.filter (fun e => e.viewColumn.isSome)

/-- Some visible editor shows the preview document. -/
def isEditorEnabled (visible : List Editor) (st : ExtState) : Bool :=
  (getVisibleTextEditors visible).any (fun e => e.doc.fsPath == st.editorURIPath)

/-- The active-regex step of updateDecorators: an explicit match argument
replaces the active regex; otherwise, when there is an active editor of a
supported language, the active regex is recomputed from its caret; in every
other case the previous active regex is kept. -/
def computeActiveRegex (compileOk : List Char → List Char → Bool)
    (activeEditor : Option Editor) (matchArg : Option RegexMatch)
    (cur : Option RegexMatch) : Option RegexMatch :=
  match matchArg with
  | some m => some m
  | none =>
    match activeEditor with
    | some ae => if isLanguageSupported ae.doc then findRegexAtCaretE compileOk ae else cur
    | none => cur

/-- The per-visible-editor step of updateDecorators: editors whose language is
supported or which show the preview document get a (possibly fresh) decorator
and an update; others are skipped.  The accumulator carries the decorators
map and the host rendered state. -/
def visitEditor (exec : JSRegexp → List Char → Nat → Option (Nat × Nat))
    (ar : Option RegexMatch) (uriPath : Nat) (gm : Bool)
    (acc : List Editor × List (Nat × DecState)) (ed : Editor) :
    List Editor × List (Nat × DecState) :=
  if isLanguageSupported ed.doc || ed.doc.fsPath == uriPath then
    (if acc.1.contains ed then acc.1 else acc.1 ++ [ed],
     setDec acc.2 ed.id (decoratorUpdate exec ed ar uriPath gm (getDec acc.2 ed.id)))
  else acc

/-- updateDecorators: a no-op unless the preview is visible; otherwise update
the active regex, visit every visible editor, then retire decorators whose
editor is no longer visible (dispose clears both layers) and drop them from
the map. -/
def updateDecorators (exec : JSRegexp → List Char → Nat → Option (Nat × Nat))
    (compileOk : List Char → List Char → Bool) (visible : List Editor)
    (activeEditor : Option Editor) (matchArg : Option RegexMatch)
    (st : ExtState) : ExtState :=
  if !isEditorEnabled visible st then st
  else
    let ar := computeActiveRegex compileOk activeEditor matchArg st.activeRegex
    let vis := getVisibleTextEditors visible
    let tr := vis.foldl (visitEditor exec ar st.editorURIPath st.addGMEnabled)
      (st.decorators, st.rendered)
    let removeEds := st.decorators.filter (fun e => !(vis.contains e))
    { rendered := removeEds.foldl (fun r e => setDec r e.id DecState.empty) tr.2,
      decorators := tr.1.filter (fun e => !(removeEds.contains e)),
      activeRegex := ar,
      addGMEnabled := st.addGMEnabled,
      editorURIPath := st.editorURIPath }

/-- The onDidCloseTextDocument handler: for every tracked editor showing the
closed document the map entry is deleted; the subsequent
decorators.get(editor)?.dispose() runs after the delete, always sees
undefined, and never executes, so the rendered decorations are untouched. -/
def onDidCloseDoc (closedPath : Nat) (st : ExtState) : ExtState :=
  { st with decorators := st.decorators.filter (fun e => !(e.doc.fsPath == closedPath)) }

/-- Quote characters consumed on each side of group 2 (php only). -/
def quoteLen : Dialect → Nat
  | .php => 1
  | _ => 0

/-- The sigil prefixed to the opening delimiter inside group 2 (haxe only). -/
def dialectSigil : Dialect → List Char
  | .haxe => ['~']
  | _ => []

/-- Structural facts about any match the scanner can produce: the full match
occurs in the text at the match index; it splits into leading boundary,
opening quote, group 2, closing quote and trailing boundary; and group 2 is
the sigil, a slash, the pattern, a slash and the flags. -/
def CandShape (d : Dialect) (text : List Char) (m : ScanCand) : Prop :=
  (∃ rest, text.drop m.index = m.m0 ++ rest) ∧
  (∃ q1 q2 tr, q1.length = quoteLen d ∧ q2.length = quoteLen d ∧ tr.length ≤ 1 ∧
     m.m0 = m.g1 ++ q1 ++ m.g2 ++ q2 ++ tr) ∧
  m.g2 = dialectSigil d ++ '/' :: (m.pattern ++ '/' :: m.flags) ∧
  m.g1.length ≤ 1

/-- The authored literal caret-a with no flags, for the augmentation scenario. -/
def caretARegex : JSRegexp := { source := "^a".toList, flags := [] }

/-- Host search oracle for the pattern caret-a evaluated against the
three-character text a, newline, a: without multiline the anchor matches only
at offset 0; with multiline it also matches after the newline, at offset 2. -/
def execCaretA (r : JSRegexp) (pos : Nat) : Option (Nat × Nat) :=
  if r.multiline then
    if pos ≤ 0 then some (0, 1) else if pos ≤ 2 then some (2, 1) else none
  else if pos ≤ 0 then some (0, 1) else none

def stdDemoCand : ScanCand :=
  ⟨2, " ".toList, "/a/g".toList, "a".toList, "g".toList, " /a/g;".toList⟩

def phpDemoLine : List Char := "a '/b/g' c".toList

def phpDemoCand : ScanCand :=
  ⟨1, " ".toList, "/b/g".toList, "b".toList, "g".toList, " '/b/g' ".toList⟩

def pipeQuoteLine : List Char := "a |/bc/| d".toList

def mismatchQuoteLine : List Char := "a '/bc/\" d".toList

def scenarioBDoc : Doc := ⟨7, "typescript", ["const r = /ab*/g;".toList]⟩

/-- The active regex, when present, references a literal the host engine
compiled successfully. -/
def CompiledOk (compileOk : List Char → List Char → Bool) : Option RegexMatch → Prop
  | some m => compileOk m.regex.source m.regex.flags = true
  | none => True

/-- The preview (scratch sample text) document, path 0. -/
def previewDoc : Doc := ⟨0, "plaintext", ["lorem".toList]⟩

def previewEditor : Editor := ⟨0, previewDoc, some 2, 0, 0⟩

/-- A supported source document containing one regex literal. -/
def srcDoc : Doc := ⟨2, "javascript", ["q= /ab*/g;".toList]⟩

def srcEditor : Editor := ⟨1, srcDoc, some 1, 0, 0⟩

/-- The literal findRegexes yields on srcDoc: pattern a-b-star, flags g,
range columns 3 to 9 of line 0. -/
def demoAR : RegexMatch := ⟨2, ⟨"ab*".toList, "g".toList⟩, ⟨0, 3, 0, 9⟩⟩

/-- An active regex whose source document (path 3) is not visible. -/
def otherAR : RegexMatch := ⟨3, ⟨"z".toList, "g".toList⟩, ⟨0, 0, 0, 1⟩⟩

/-- Host search oracle for the patterns used in the scenarios: the derived
a-b-star regex finds its single occurrence at offsets 4 to 6 of srcDoc's
text and nothing elsewhere; every other pattern-text pair finds nothing. -/
def execDemo (r : JSRegexp) (text : List Char) (pos : Nat) : Option (Nat × Nat) :=
  if r.source == "ab*".toList && text == srcDoc.getText then
    if pos ≤ 4 then some (4, 2) else none
  else none

def c1State : ExtState :=
  { rendered := [], decorators := [], activeRegex := none,
    addGMEnabled := true, editorURIPath := 0 }

/-- State after an earlier recomputation rendered the origin span on
srcEditor, with the active regex now living in another document. -/
def c2State : ExtState :=
  { rendered := [(1, ⟨[], [⟨0, 3, 0, 9⟩]⟩)], decorators := [srcEditor],
    activeRegex := some otherAR, addGMEnabled := true, editorURIPath := 0 }

/-- State with one tracked editor carrying a rendered origin span, for the
document-close scenario. -/
def closeDemoState : ExtState :=
  { rendered := [(1, ⟨[], [⟨0, 3, 0, 9⟩]⟩)], decorators := [srcEditor],
    activeRegex := none, addGMEnabled := true, editorURIPath := 0 }

theorem head?_mem {α : Type} {l : List α} {a : α} (h : l.head? = some a) : a ∈ l := by
  cases l with
  | nil => simp at h
  | cons x xs => simp at h; simp [h]

theorem charClassP_eq {p : Char → Bool} {cs : List Char} {r : List Char × List Char}
    (h : r ∈ charClassP p cs) : cs = r.1 ++ r.2 ∧ r.1.length = 1 := by
  cases cs with
  | nil => simp [charClassP] at h
  | cons c rest =>
    simp only [charClassP] at h
    split at h
    · simp at h; simp [h]
    · simp at h

theorem charP_eq {c : Char} {cs : List Char} {r : List Char × List Char}
    (h : r ∈ charP c cs) : cs = r.1 ++ r.2 ∧ r.1 = [c] := by
  cases cs with
  | nil => simp [charP, charClassP] at h
  | cons x rest =>
    simp only [charP, charClassP] at h
    split at h
    · rename_i hx
      simp at h hx
      simp [h, hx]
    · simp at h

theorem classInner_eq :
    ∀ (cs : List Char) (r : List Char × List Char), r ∈ classInner cs → cs = r.1 ++ r.2 := by
  intro cs
  induction cs with
  | nil => intro r h; simp [classInner] at h; simp [h]
  | cons c cs ih =>
    intro r h
    simp only [classInner] at h
    split at h
    · simp at h; simp [h]
    · rcases List.mem_append.1 h with h1 | h1
      · rcases List.mem_map.1 h1 with ⟨q, hq, rfl⟩
        simpa using congrArg (c :: ·) (ih q hq)
      · simp at h1; simp [h1]

theorem bodyElem_eq {cs : List Char} {r : List Char × List Char}
    (h : r ∈ bodyElem cs) : cs = r.1 ++ r.2 ∧ 1 ≤ r.1.length := by
  unfold bodyElem at h
  rcases List.mem_append.1 h with h1 | h1
  · rcases List.mem_append.1 h1 with h2 | h2
    · split at h2
      · simp at h2; simp [h2]
      · simp at h2
    · split at h2
      · rcases List.mem_flatMap.1 h2 with ⟨q, hq, hr⟩
        have hq2 := classInner_eq _ _ hq
        split at hr
        · rename_i rest2 heq
          simp at hr
          subst hr
          simp only [hq2, heq]
          simp
        · simp at hr
      · simp at h2
  · split at h1
    · rename_i c rest
      split at h1
      · simp at h1
      · simp at h1; simp [h1]
    · simp at h1

theorem bodyPlus_eq :
    ∀ (fuel : Nat) (cs : List Char) (r : List Char × List Char),
      r ∈ bodyPlus fuel cs → cs = r.1 ++ r.2 ∧ 1 ≤ r.1.length := by
  intro fuel
  induction fuel with
  | zero => intro cs r h; simp [bodyPlus] at h
  | succ fuel ih =>
    intro cs r h
    simp only [bodyPlus] at h
    rcases List.mem_flatMap.1 h with ⟨p, hp, hr⟩
    have hp2 := bodyElem_eq hp
    rcases List.mem_append.1 hr with h1 | h1
    · rcases List.mem_map.1 h1 with ⟨q, hq, rfl⟩
      have hq2 := ih p.2 q hq
      constructor
      · simp only [hp2.1, hq2.1, List.append_assoc]
      · simp only [List.length_append]
        omega
    · simp at h1
      subst h1
      exact hp2

theorem charStar_eq {p : Char → Bool} :
    ∀ (cs : List Char) (r : List Char × List Char), r ∈ charStar p cs → cs = r.1 ++ r.2 := by
  intro cs
  induction cs with
  | nil => intro r h; simp [charStar] at h; simp [h]
  | cons c cs ih =>
    intro r h
    simp only [charStar] at h
    split at h
    · rcases List.mem_append.1 h with h1 | h1
      · rcases List.mem_map.1 h1 with ⟨q, hq, rfl⟩
        simpa using congrArg (c :: ·) (ih q hq)
      · simp at h1; simp [h1]
    · simp at h; simp [h]

theorem leadBoundary_eq {atStart : Bool} {cs : List Char} {r : List Char × List Char}
    (h : r ∈ leadBoundary atStart cs) : cs = r.1 ++ r.2 ∧ r.1.length ≤ 1 := by
  unfold leadBoundary at h
  rcases List.mem_append.1 h with h1 | h1
  · split at h1
    · simp at h1; simp [h1]
    · simp at h1
  · split at h1
    · rcases List.mem_append.1 h1 with h2 | h2 <;>
        (split at h2 <;> simp at h2) <;> simp [h2]
    · simp at h1

theorem trailBoundary_eq {d : Dialect} {cs : List Char} {r : List Char × List Char}
    (h : r ∈ trailBoundary d cs) : cs = r.1 ++ r.2 ∧ r.1.length ≤ 1 := by
  unfold trailBoundary at h
  rcases List.mem_append.1 h with h1 | h1
  · split at h1
    · rcases List.mem_append.1 h1 with h2 | h2 <;>
        (split at h2 <;> simp at h2) <;> simp [h2]
    · simp at h1
  · split at h1
    · simp at h1; simp [h1]
    · simp at h1

theorem quoteIf_eq {d : Dialect} {cs : List Char} {r : List Char × List Char}
    (h : r ∈ quoteIf d cs) : cs = r.1 ++ r.2 ∧ r.1.length = quoteLen d := by
  cases d <;> simp only [quoteIf, quoteLen] at h ⊢
  · simp at h; simp [h]
  · exact charClassP_eq h
  · simp at h; simp [h]

theorem sigilIf_eq {d : Dialect} {cs : List Char} {r : List Char × List Char}
    (h : r ∈ sigilIf d cs) : cs = r.1 ++ r.2 ∧ r.1 = dialectSigil d := by
  cases d <;> simp only [sigilIf, dialectSigil] at h ⊢
  · simp at h; simp [h]
  · simp at h; simp [h]
  · exact charP_eq h

theorem matchAtPos_shape {d : Dialect} {text : List Char} {s : Nat} {m : ScanCand}
    (h : matchAtPos d text s = some m) : m.index = s ∧ CandShape d text m := by
  have hmem := head?_mem h
  rcases List.mem_flatMap.1 hmem with ⟨b1, hb1, hmem⟩
  rcases List.mem_flatMap.1 hmem with ⟨q1, hq1, hmem⟩
  rcases List.mem_flatMap.1 hmem with ⟨sg, hsg, hmem⟩
  rcases List.mem_flatMap.1 hmem with ⟨o, ho, hmem⟩
  rcases List.mem_flatMap.1 hmem with ⟨bd, hbd, hmem⟩
  rcases List.mem_flatMap.1 hmem with ⟨c2, hc2, hmem⟩
  rcases List.mem_flatMap.1 hmem with ⟨fl, hfl, hmem⟩
  rcases List.mem_flatMap.1 hmem with ⟨q2, hq2, hmem⟩
  rcases List.mem_map.1 hmem with ⟨tr, htr, hm⟩
  have e1 := leadBoundary_eq hb1
  have e2 := quoteIf_eq hq1
  have e3 := sigilIf_eq hsg
  have e4 := charP_eq ho
  have e5 := bodyPlus_eq _ _ _ hbd
  have e6 := charP_eq hc2
  have e7 := charStar_eq (p := isFlagChar d) _ _ hfl
  have e8 := quoteIf_eq hq2
  have e9 := trailBoundary_eq htr
  subst hm
  refine ⟨rfl, ⟨tr.2, ?_⟩, ⟨q1.1, q2.1, tr.1, e2.2, e8.2, e9.2, ?_⟩, ?_, e1.2⟩
  · simp only
    rw [e1.1, e2.1, e3.1, e4.1, e5.1, e6.1, e7, e8.1, e9.1]
    simp [List.append_assoc]
  · simp [List.append_assoc]
  · simp only
    rw [e3.2, e4.2, e6.2]
    simp

theorem CandShape.g1_le_m0 {d : Dialect} {text : List Char} {m : ScanCand}
    (h : CandShape d text m) : m.g1.length ≤ m.m0.length := by
  rcases h with ⟨-, ⟨q1, q2, tr, -, -, -, hsplit⟩, -, -⟩
  rw [hsplit]
  simp only [List.length_append]
  omega

theorem execFromAux_some {d : Dialect} {text : List Char} :
    ∀ (n s : Nat) {m : ScanCand}, execFromAux d text n s = some m →
      ∃ t, s ≤ t ∧ matchAtPos d text t = some m := by
  intro n
  induction n with
  | zero => intro s m h; exact ⟨s, Nat.le_refl s, h⟩
  | succ n ih =>
    intro s m h
    simp only [execFromAux] at h
    cases hM : matchAtPos d text s with
    | some m0 => rw [hM] at h; exact ⟨s, Nat.le_refl s, by simp at h; simp [hM, h]⟩
    | none =>
      rw [hM] at h
      rcases ih (s + 1) h with ⟨t, ht, hMt⟩
      exact ⟨t, by omega, hMt⟩

theorem execFrom_some {d : Dialect} {text : List Char} {pos : Nat} {m : ScanCand}
    (h : execFrom d text pos = some m) : pos ≤ m.index ∧ CandShape d text m := by
  unfold execFrom at h
  split at h
  · rcases execFromAux_some _ _ h with ⟨t, ht, hMt⟩
    have := matchAtPos_shape hMt
    exact ⟨by omega, this.2⟩
  · simp at h

theorem scanFromAux_shape {d : Dialect} {text : List Char} :
    ∀ (fuel pos : Nat) {m : ScanCand}, m ∈ scanFromAux d text fuel pos →
      pos ≤ m.index ∧ CandShape d text m := by
  intro fuel
  induction fuel with
  | zero => intro pos m h; simp [scanFromAux] at h
  | succ fuel ih =>
    intro pos m h
    simp only [scanFromAux] at h
    cases hE : execFrom d text pos with
    | none => rw [hE] at h; simp at h
    | some m0 =>
      rw [hE] at h
      have hm0 := execFrom_some hE
      rcases List.mem_cons.1 h with rfl | h
      · exact hm0
      · have := ih (m0.index + m0.m0.length) h
        exact ⟨by omega, this.2⟩

/-- The claim-side selection rule: the first candidate in source order whose
occupied range straddles the caret. -/
theorem caretPick_eq_find (d : Dialect) (text : List Char) :
    ∀ (fuel pos caret : Nat),
      caretPick (scanFromAux d text fuel pos) caret =
        (scanFromAux d text fuel pos).find? (straddles caret) := by
  intro fuel
  induction fuel with
  | zero => intro pos caret; simp [scanFromAux, caretPick]
  | succ fuel ih =>
    intro pos caret
    cases hE : execFrom d text pos with
    | none => simp [scanFromAux, hE, caretPick]
    | some m =>
      have hlist : scanFromAux d text (fuel + 1) pos =
          m :: scanFromAux d text fuel (m.index + m.m0.length) := by
        simp [scanFromAux, hE]
      rw [hlist]
      have hm := execFrom_some hE
      simp only [caretPick] at ih ⊢
      by_cases hend : m.index + m.g1.length + m.g2.length < caret
      · have hp : (!decide (m.index + m.g1.length + m.g2.length < caret)) = false := by
          simp [hend]
        have hs : straddles caret m = false := by
          simp only [straddles, Bool.and_eq_false_iff, decide_eq_false_iff_not]
          omega
        simp only [List.find?_cons, hp, hs]
        exact ih (m.index + m.m0.length) caret
      · have hp : (!decide (m.index + m.g1.length + m.g2.length < caret)) = true := by
          simp [hend]
        by_cases hstart : m.index + m.g1.length ≤ caret
        · have hs : straddles caret m = true := by
            simp only [straddles, Bool.and_eq_true, decide_eq_true_eq]
            omega
          simp [List.find?_cons, hp, hs, hstart]
        · have hs : straddles caret m = false := by
            simp only [straddles, Bool.and_eq_false_iff, decide_eq_false_iff_not]
            omega
          simp only [List.find?_cons, hp, hs, hstart, if_false]
          symm
          rw [List.find?_eq_none]
          intro m2 hm2
          have h2 := scanFromAux_shape _ _ hm2
          have hle := hm.2.g1_le_m0
          simp only [straddles, Bool.and_eq_true, decide_eq_true_eq, not_and]
          intro hc
          omega

theorem findMatchesGo_global_step (search : Nat → Option (Nat × Nat))
    (fuel li : Nat) (acc : List (Nat × Nat)) :
    findMatchesGo search true (fuel + 1) li acc =
      match search li with
      | none => acc
      | some (i, l) =>
        findMatchesGo search true fuel (if i + l == i then i + l + 1 else i + l)
          (acc ++ [(i, i + l)]) := by
  simp only [findMatchesGo, Bool.true_or, if_true]

theorem findMatchesGo_global_succ {search : Nat → Option (Nat × Nat)} {textLen : Nat}
    (hs : SaneSearch search textLen) :
    ∀ (fuel li : Nat) (acc : List (Nat × Nat)), textLen + 2 ≤ fuel + li →
      findMatchesGo search true (fuel + 1) li acc = findMatchesGo search true fuel li acc := by
  intro fuel
  induction fuel with
  | zero =>
    intro li acc h
    have hN : search li = none := hs.2 li (by omega)
    rw [findMatchesGo_global_step, hN]
    rfl
  | succ fuel ih =>
    intro li acc h
    rw [findMatchesGo_global_step, findMatchesGo_global_step]
    cases hE : search li with
    | none => rfl
    | some p =>
      obtain ⟨i, l⟩ := p
      have hb := hs.1 li i l hE
      apply ih
      by_cases hz : i + l = i
      · have hzb : (i + l == i) = true := by simp [hz]
        rw [if_pos hzb]
        omega
      · have hzb : (i + l == i) = false := by simp [hz]
        rw [hzb]
        simp only [Bool.false_eq_true, if_false]
        omega

theorem findMatchesGo_global_stable {search : Nat → Option (Nat × Nat)} {textLen : Nat}
    (hs : SaneSearch search textLen) (fuel : Nat) (h : textLen + 2 ≤ fuel) :
    findMatchesGo search true fuel 0 [] = findMatchesGo search true (textLen + 2) 0 [] := by
  obtain ⟨k, rfl⟩ := Nat.le.dest h
  clear h
  induction k with
  | zero => rfl
  | succ k ih =>
    have e : textLen + 2 + (k + 1) = (textLen + 2 + k) + 1 := rfl
    rw [e, findMatchesGo_global_succ hs (textLen + 2 + k) 0 [] (by omega)]
    exact ih

theorem findMatchesGo_nonglobal_acc (search : Nat → Option (Nat × Nat)) :
    ∀ (fuel li : Nat) (acc : List (Nat × Nat)), acc ≠ [] →
      findMatchesGo search false fuel li acc = acc := by
  intro fuel li acc h
  have hi : acc.isEmpty = false := by
    cases acc with
    | nil => exact absurd rfl h
    | cons a l => rfl
  cases fuel with
  | zero => rfl
  | succ fuel => simp [findMatchesGo, hi]

theorem findMatchesGo_nonglobal_empty_step (search : Nat → Option (Nat × Nat))
    (fuel li : Nat) :
    findMatchesGo search false (fuel + 1) li [] =
      match search 0 with
      | none => []
      | some (i, l) =>
        findMatchesGo search false fuel (if li == i then li + 1 else li) [(i, i + l)] := by
  simp only [findMatchesGo]
  cases hE : search 0 with
  | none => simp [hE]
  | some p =>
    obtain ⟨i, l⟩ := p
    simp [hE]

theorem findMatchesGo_nonglobal_stable (search : Nat → Option (Nat × Nat)) (fuel : Nat)
    (h : 2 ≤ fuel) :
    findMatchesGo search false fuel 0 [] = findMatchesGo search false 2 0 [] := by
  obtain ⟨f, rfl⟩ : ∃ f, fuel = f + 2 := ⟨fuel - 2, by omega⟩
  rw [show f + 2 = (f + 1) + 1 from rfl, show (2 : Nat) = 1 + 1 from rfl]
  rw [findMatchesGo_nonglobal_empty_step, findMatchesGo_nonglobal_empty_step]
  cases hE : search 0 with
  | none => rfl
  | some p =>
    obtain ⟨i, l⟩ := p
    exact (findMatchesGo_nonglobal_acc search (f + 1) _ _ (by simp)).trans
      (findMatchesGo_nonglobal_acc search 1 _ _ (by simp)).symm

theorem findMatchesGo_stable {search : Nat → Option (Nat × Nat)} {textLen : Nat}
    {isGlobal : Bool} (hs : SaneSearch search textLen) (fuel : Nat)
    (h : textLen + 2 ≤ fuel) :
    findMatchesGo search isGlobal fuel 0 [] =
      findMatchesGo search isGlobal (textLen + 2) 0 [] := by
  cases isGlobal with
  | false =>
    rw [findMatchesGo_nonglobal_stable search fuel (by omega),
      findMatchesGo_nonglobal_stable search (textLen + 2) (by omega)]
  | true => exact findMatchesGo_global_stable hs fuel h

theorem findMatchesGo_empty (N : Nat) :
    ∀ (k li : Nat) (acc : List (Nat × Nat)), li + k = N + 1 →
      findMatchesGo (emptySearch N) true (k + 1) li acc =
        acc ++ (List.range' li k).map (fun i => (i, i)) := by
  intro k
  induction k with
  | zero =>
    intro li acc h
    have hE : emptySearch N li = none := by
      unfold emptySearch
      rw [if_neg (by omega)]
    rw [findMatchesGo_global_step, hE]
    simp
  | succ k ih =>
    intro li acc h
    have hE : emptySearch N li = some (li, 0) := by
      unfold emptySearch
      rw [if_pos (by omega)]
    rw [findMatchesGo_global_step]
    simp only [hE, Nat.add_zero, beq_self_eq_true, if_true]
    rw [ih (li + 1) _ (by omega)]
    rw [List.range'_succ]
    simp

theorem findMatchesOffsets_empty (N : Nat) :
    findMatchesOffsets (emptySearch N) true N =
      (List.range (N + 1)).map (fun i => (i, i)) := by
  unfold findMatchesOffsets
  rw [show N + 2 = (N + 1) + 1 from rfl, findMatchesGo_empty N (N + 1) 0 [] (by omega)]
  simp [List.range_eq_range']

theorem emptySearch_sane (N : Nat) : SaneSearch (emptySearch N) N := by
  constructor
  · intro pos i l h
    unfold emptySearch at h
    split at h
    · simp at h
      omega
    · simp at h
  · intro pos h
    unfold emptySearch
    rw [if_neg (by omega)]

theorem dropTakeMiddle {α : Type} (a b c : List α) (n : Nat) (hn : n = a.length) :
    ((a ++ (b ++ c)).drop n).take b.length = b := by
  subst hn
  rw [List.drop_left, List.take_left]

theorem c3Extract {d : Dialect} {text : List Char} {m : ScanCand}
    (h : CandShape d text m) :
    (text.drop (m.index + m.g1.length + quoteLen d)).take m.g2.length = m.g2 := by
  rcases h with ⟨⟨rest, hdrop⟩, ⟨q1, q2, tr, hq1, hq2, htr, hsplit⟩, hg2, hg1⟩
  have e : m.index + m.g1.length + quoteLen d = m.index + (m.g1.length + quoteLen d) := by
    omega
  have key : m.m0 ++ rest = (m.g1 ++ q1) ++ (m.g2 ++ ((q2 ++ tr) ++ rest)) := by
    rw [hsplit]
    simp [List.append_assoc]
  rw [e, ← List.drop_drop, hdrop, key]
  exact dropTakeMiddle _ _ _ _ (by simp [hq1])

/-- Claim C3 (corrected): for every candidate any of the three scanners
yields, the pattern and flags are recovered exactly — group 2 is the
delimiter-to-flags text sigil, slash, pattern, slash, flags — and that text
occurs verbatim in the scanned line at offset match.index + (group 1 length)
+ (1 in the quoted-string dialect, 0 otherwise).  Since the reported span
starts at match.index + (group 1 length) and extends for the length of
group 2, the span is exactly the delimiter-to-flags substring in the default
and prefix-sigil dialects, but in the quoted-string dialect it sits one
character to the left of it: it starts at the opening quote and ends one
character before the end of the flags. -/
theorem c3_scannerSpan (d : Dialect) (text : List Char) (m : ScanCand)
    (h : m ∈ scanLine d text) :
    m.g2 = dialectSigil d ++ '/' :: (m.pattern ++ '/' :: m.flags) ∧
    (text.drop (m.index + m.g1.length + quoteLen d)).take m.g2.length = m.g2 := by
  have hs := (scanFromAux_shape _ _ h).2
  exact ⟨hs.2.2.1, c3Extract hs⟩

theorem c3_scannerSpan_witness :
    stdDemoCand ∈ scanLine .std "x= /a/g;".toList ∧
    (stdDemoCand.g2 =
        dialectSigil .std ++ '/' :: (stdDemoCand.pattern ++ '/' :: stdDemoCand.flags) ∧
      (("x= /a/g;".toList).drop
          (stdDemoCand.index + stdDemoCand.g1.length + quoteLen .std)).take
        stdDemoCand.g2.length = stdDemoCand.g2) :=
  ⟨by decide, c3_scannerSpan .std "x= /a/g;".toList stdDemoCand (by decide)⟩

/-- Claim C3 counterexample: on the quoted-string dialect line, the single
candidate's reported span (starting at match.index + group 1 length, of
group 2's length) does not read back the delimiter-to-flags substring
slash-b-slash-g: it covers the opening quote and drops the final flag. -/
theorem c3_phpSpanCounterexample :
    scanLine .php phpDemoLine = [phpDemoCand] ∧
    (phpDemoLine.drop (phpDemoCand.index + phpDemoCand.g1.length)).take
        phpDemoCand.g2.length ≠
      '/' :: (phpDemoCand.pattern ++ '/' :: phpDemoCand.flags) := by
  constructor
  · decide
  · decide

/-- Claim C4 (code bug): the quoted-string scanner accepts the pipe as the
enclosing character and accepts mismatched enclosing characters, because
phpRegexRegex spells the intended single-or-double-quote alternative as a
character class that contains the quote, the pipe and the double quote, and
the two sides are matched independently. -/
theorem c4_pipeQuoteAccepted :
    (scanLine .php pipeQuoteLine).map ScanCand.pattern = ["bc".toList] ∧
    (scanLine .php mismatchQuoteLine).map ScanCand.pattern = ["bc".toList] := by
  constructor
  · decide
  · decide

/-- Claim C5 (confirmed): the caret loop selects exactly the first scanned
candidate in source order whose occupied range straddles the caret — its
group-2 span starts at or before and ends at or after the caret — and
nothing when no candidate straddles it; concretely, on the line
const r = slash-a-b-star-slash-g semicolon, caret column 14 yields that
literal (span columns 10 to 16) and caret column 5 yields nothing. -/
theorem c5_caretSelection :
    (∀ (d : Dialect) (text : List Char) (caret : Nat),
      caretPick (scanLine d text) caret = (scanLine d text).find? (straddles caret)) ∧
    findRegexAtCaretE (fun _ _ => true) ⟨5, scenarioBDoc, some 1, 0, 14⟩ =
      some ⟨7, ⟨"ab*".toList, "g".toList⟩, ⟨0, 10, 0, 16⟩⟩ ∧
    findRegexAtCaretE (fun _ _ => true) ⟨5, scenarioBDoc, some 1, 0, 5⟩ = none := by
  refine ⟨fun d text caret => caretPick_eq_find d text (text.length + 1) 0 caret, ?_, ?_⟩
  · decide
  · decide

/-- Claim C6 (confirmed): with augmentation on, a matcher missing the global
flag or the multiline flag is replaced for evaluation by a derived matcher
carrying both, with the same source (the original is not mutated — addGM
builds a fresh value); with augmentation off, or when both flags are already
present, the matcher is used unchanged.  Against the text a-newline-a, the
flagless pattern caret-a yields two matches when augmented and one when
not. -/
theorem c6_addGMPolicy :
    (∀ r : JSRegexp, (r.global = false ∨ r.multiline = false) →
      (addGM r true).global = true ∧ (addGM r true).multiline = true ∧
        (addGM r true).source = r.source) ∧
    (∀ r : JSRegexp, addGM r false = r) ∧
    (∀ r : JSRegexp, r.global = true → r.multiline = true → ∀ b : Bool, addGM r b = r) ∧
    findMatchesOffsets (execCaretA (addGM caretARegex true))
        (addGM caretARegex true).global 3 = [(0, 1), (2, 3)] ∧
    findMatchesOffsets (execCaretA (addGM caretARegex false))
        (addGM caretARegex false).global 3 = [(0, 1)] := by
  refine ⟨?_, ?_, ?_, by decide, by decide⟩
  · intro r h
    cases hg : r.global <;> cases hm : r.multiline <;>
      simp_all [addGM, JSRegexp.global, JSRegexp.multiline]
  · intro r
    simp [addGM]
  · intro r hg hm b
    cases b <;> simp [addGM, hg, hm]

theorem c6_addGMPolicy_witness :
    (addGM caretARegex true).global = true ∧ (addGM caretARegex true).multiline = true ∧
      (addGM caretARegex true).source = caretARegex.source :=
  c6_addGMPolicy.1 caretARegex (Or.inl (by decide))

/-- Claim C7 (confirmed): the findMatches loop terminates on every
well-behaved host search — the result is already stable at fuel
textLen + 2, because a zero-length match bumps lastIndex past the match
start, so every global iteration advances lastIndex and a non-global run
stops after one match — and evaluating the empty global pattern (an empty
match at every offset) over an N-character text yields exactly N + 1
zero-length spans at offsets 0 through N. -/
theorem c7_terminationAndEmptyPattern :
    (∀ (search : Nat → Option (Nat × Nat)) (textLen : Nat) (isGlobal : Bool) (fuel : Nat),
        SaneSearch search textLen → textLen + 2 ≤ fuel →
        findMatchesGo search isGlobal fuel 0 [] =
          findMatchesGo search isGlobal (textLen + 2) 0 []) ∧
    (∀ N : Nat, findMatchesOffsets (emptySearch N) true N =
        (List.range (N + 1)).map (fun i => (i, i))) :=
  ⟨fun _ _ _ fuel hs h => findMatchesGo_stable hs fuel h, findMatchesOffsets_empty⟩

theorem c7_terminationAndEmptyPattern_witness :
    findMatchesGo (emptySearch 1) true 9 0 [] = findMatchesGo (emptySearch 1) true 3 0 [] ∧
    findMatchesOffsets (emptySearch 2) true 2 = [(0, 0), (1, 1), (2, 2)] := by
  constructor
  · exact c7_terminationAndEmptyPattern.1 (emptySearch 1) 1 true 9 (emptySearch_sane 1)
      (by omega)
  · rw [c7_terminationAndEmptyPattern.2 2]
    decide

theorem getDec_cons (q : Nat × DecState) (rest : List (Nat × DecState)) (i : Nat) :
    getDec (q :: rest) i = if q.1 == i then q.2 else getDec rest i := by
  by_cases hq : (q.1 == i) = true
  · simp [getDec, List.find?_cons, hq]
  · have hq' : (q.1 == i) = false := by simpa using hq
    simp [getDec, List.find?_cons, hq']

theorem setDec_cons_ne (p : Nat × DecState) (r : List (Nat × DecState)) (i : Nat)
    (d : DecState) (hp : (p.1 == i) = false) :
    setDec (p :: r) i d = p :: setDec r i d := by
  have hpne : ¬(p.1 = i) := by simpa using hp
  simp only [setDec, List.any_cons, hp, Bool.false_or]
  cases hany : r.any (fun q => q.1 == i) <;> simp [hp, hpne]

theorem getDec_setDec_same : ∀ (r : List (Nat × DecState)) (i : Nat) (d : DecState),
    getDec (setDec r i d) i = d := by
  intro r i d
  induction r with
  | nil => simp [setDec, getDec, List.find?]
  | cons p r ih =>
    by_cases hp : (p.1 == i) = true
    · have hany : ((p :: r).any (fun q => q.1 == i)) = true := by
        simp [List.any_cons, hp]
      simp only [setDec, hany, if_true, List.map_cons, hp]
      rw [getDec_cons]
      simp
    · have hp' : (p.1 == i) = false := by simpa using hp
      rw [setDec_cons_ne p r i d hp', getDec_cons]
      simp [hp', ih]

theorem getDec_map_keyi : ∀ (r : List (Nat × DecState)) (i j : Nat) (d : DecState),
    i ≠ j →
    getDec (r.map (fun p => if p.1 == i then (i, d) else p)) j = getDec r j := by
  intro r i j d hij
  induction r with
  | nil => rfl
  | cons p r ih =>
    simp only [List.map_cons]
    by_cases hp : (p.1 == i) = true
    · have hpi : p.1 = i := by simpa using hp
      rw [if_pos hp, getDec_cons, getDec_cons]
      have h1 : ((i, d).1 == j) = false := by simp; omega
      have h2 : (p.1 == j) = false := by simp [hpi]; omega
      simp only [h1, h2, Bool.false_eq_true, if_false]
      exact ih
    · have hp' : ¬((p.1 == i) = true) := hp
      rw [if_neg hp', getDec_cons, getDec_cons]
      by_cases hq : (p.1 == j) = true
      · rw [if_pos hq, if_pos hq]
      · rw [if_neg hq, if_neg hq]
        exact ih

theorem getDec_setDec_other : ∀ (r : List (Nat × DecState)) (i j : Nat) (d : DecState),
    i ≠ j → getDec (setDec r i d) j = getDec r j := by
  intro r i j d hij
  induction r with
  | nil =>
    have hb : (i == j) = false := by simp; omega
    simp [setDec, getDec, List.find?, hb]
  | cons p r ih =>
    by_cases hp : (p.1 == i) = true
    · have hany : ((p :: r).any (fun q => q.1 == i)) = true := by
        simp [List.any_cons, hp]
      simp only [setDec, hany, if_true, List.map_cons, hp]
      rw [getDec_cons, getDec_cons]
      have hpi : p.1 = i := by simpa using hp
      have h1 : ((i, d).1 == j) = false := by simp; omega
      have h2 : (p.1 == j) = false := by simp [hpi]; omega
      simp only [h1, h2, Bool.false_eq_true, if_false]
      exact getDec_map_keyi r i j d hij
    · have hp' : (p.1 == i) = false := by simpa using hp
      rw [setDec_cons_ne p r i d hp', getDec_cons, getDec_cons]
      by_cases hq : (p.1 == j) = true
      · rw [if_pos hq, if_pos hq]
      · rw [if_neg hq, if_neg hq]
        exact ih

theorem visit_fold_other (exec : JSRegexp → List Char → Nat → Option (Nat × Nat))
    (ar : Option RegexMatch) (uriPath : Nat) (gm : Bool) :
    ∀ (l : List Editor) (acc : List Editor × List (Nat × DecState)) (j : Nat),
      (∀ e ∈ l, e.id ≠ j) →
      getDec (l.foldl (visitEditor exec ar uriPath gm) acc).2 j = getDec acc.2 j := by
  intro l
  induction l with
  | nil => intro acc j h; rfl
  | cons e l ih =>
    intro acc j h
    rw [List.foldl_cons, ih _ j (fun e2 he2 => h e2 (List.mem_cons_of_mem _ he2))]
    unfold visitEditor
    split
    · exact getDec_setDec_other _ _ _ _ (h e (List.mem_cons_self e l))
    · rfl

theorem visitEditor_rel (exec : JSRegexp → List Char → Nat → Option (Nat × Nat))
    (ar : Option RegexMatch) (uriPath : Nat) (gm : Bool)
    (acc : List Editor × List (Nat × DecState)) (ed : Editor)
    (hrel : (isLanguageSupported ed.doc || ed.doc.fsPath == uriPath) = true) :
    visitEditor exec ar uriPath gm acc ed =
      (if acc.1.contains ed then acc.1 else acc.1 ++ [ed],
       setDec acc.2 ed.id (decoratorUpdate exec ed ar uriPath gm (getDec acc.2 ed.id))) := by
  unfold visitEditor
  rw [if_pos hrel]

theorem visit_fold_getDec (exec : JSRegexp → List Char → Nat → Option (Nat × Nat))
    (ar : Option RegexMatch) (uriPath : Nat) (gm : Bool)
    (l1 l2 : List Editor) (ed : Editor) (acc : List Editor × List (Nat × DecState))
    (h1 : ∀ e ∈ l1, e.id ≠ ed.id) (h2 : ∀ e ∈ l2, e.id ≠ ed.id)
    (hrel : (isLanguageSupported ed.doc || ed.doc.fsPath == uriPath) = true) :
    getDec ((l1 ++ ed :: l2).foldl (visitEditor exec ar uriPath gm) acc).2 ed.id =
      decoratorUpdate exec ed ar uriPath gm (getDec acc.2 ed.id) := by
  rw [List.foldl_append, List.foldl_cons]
  rw [visit_fold_other exec ar uriPath gm l2 _ ed.id h2]
  have hfold : getDec (l1.foldl (visitEditor exec ar uriPath gm) acc).2 ed.id =
      getDec acc.2 ed.id := visit_fold_other exec ar uriPath gm l1 acc ed.id h1
  rw [visitEditor_rel exec ar uriPath gm _ ed hrel]
  rw [show ∀ (a : List Editor) (b : List (Nat × DecState)), ((a, b) : _ × _).2 = b
    from fun a b => rfl]
  rw [getDec_setDec_same, hfold]

theorem remove_fold_other :
    ∀ (l : List Editor) (r : List (Nat × DecState)) (j : Nat),
      (∀ e ∈ l, e.id ≠ j) →
      getDec (l.foldl (fun r2 e => setDec r2 e.id DecState.empty) r) j = getDec r j := by
  intro l
  induction l with
  | nil => intro r j h; rfl
  | cons e l ih =>
    intro r j h
    rw [List.foldl_cons, ih _ j (fun e2 he2 => h e2 (List.mem_cons_of_mem _ he2))]
    exact getDec_setDec_other _ _ _ _ (h e (List.mem_cons_self e l))

theorem nodup_split {l : List Editor} {ed : Editor} (h : ed ∈ l)
    (hnd : (l.map Editor.id).Nodup) :
    ∃ l1 l2, l = l1 ++ ed :: l2 ∧
      (∀ e ∈ l1, e.id ≠ ed.id) ∧ (∀ e ∈ l2, e.id ≠ ed.id) := by
  rcases List.append_of_mem h with ⟨l1, l2, rfl⟩
  have hmap : (l1.map Editor.id ++ ed.id :: l2.map Editor.id).Nodup := by
    simpa using hnd
  rw [List.nodup_append] at hmap
  refine ⟨l1, l2, rfl, ?_, ?_⟩
  · intro e he heq
    have hin : ed.id ∈ l1.map Editor.id := by
      exact List.mem_map.2 ⟨e, he, heq⟩
    exact (hmap.2.2 hin) (List.mem_cons_self _ _)
  · intro e he heq
    have hin : ed.id ∈ l2.map Editor.id := by
      exact List.mem_map.2 ⟨e, he, heq⟩
    exact (List.nodup_cons.1 hmap.2.1).1 hin

theorem updateDecorators_enabled (exec : JSRegexp → List Char → Nat → Option (Nat × Nat))
    (compileOk : List Char → List Char → Bool) (visible : List Editor)
    (activeEditor : Option Editor) (matchArg : Option RegexMatch) (st : ExtState)
    (hen : isEditorEnabled visible st = true) :
    updateDecorators exec compileOk visible activeEditor matchArg st =
      { rendered := (st.decorators.filter
            (fun e => !((getVisibleTextEditors visible).contains e))).foldl
            (fun r e => setDec r e.id DecState.empty)
            (((getVisibleTextEditors visible).foldl
              (visitEditor exec
                (computeActiveRegex compileOk activeEditor matchArg st.activeRegex)
                st.editorURIPath st.addGMEnabled)
              (st.decorators, st.rendered)).2),
        decorators := (((getVisibleTextEditors visible).foldl
              (visitEditor exec
                (computeActiveRegex compileOk activeEditor matchArg st.activeRegex)
                st.editorURIPath st.addGMEnabled)
              (st.decorators, st.rendered)).1).filter
            (fun e => !((st.decorators.filter
              (fun e2 => !((getVisibleTextEditors visible).contains e2))).contains e)),
        activeRegex := computeActiveRegex compileOk activeEditor matchArg st.activeRegex,
        addGMEnabled := st.addGMEnabled,
        editorURIPath := st.editorURIPath } := by
  unfold updateDecorators
  rw [hen]
  rfl

/-- Claim C1 (corrected): with an active regex present, a recomputation sets
the weak origin-highlight layer of a visible supported view of the active
regex's source document (other than the preview view) to the spans of
findMatches — the active regex evaluated, under the augmentation policy,
against that document's own full text — leaving the match layer as it was;
it does not render the literal's own span, and the number of spans equals
the number of matches, not one. -/
theorem c1_sourceViewRendering
    (exec : JSRegexp → List Char → Nat → Option (Nat × Nat))
    (compileOk : List Char → List Char → Bool)
    (visible : List Editor) (activeEditor : Option Editor)
    (matchArg : Option RegexMatch) (st : ExtState) (ed : Editor) (ar : RegexMatch)
    (hen : isEditorEnabled visible st = true)
    (hvis : ed ∈ getVisibleTextEditors visible)
    (hnd : ((getVisibleTextEditors visible).map Editor.id).Nodup)
    (hid : ∀ e ∈ st.decorators, e.id = ed.id → e = ed)
    (hsup : isLanguageSupported ed.doc = true)
    (hnp : ed.doc.fsPath ≠ st.editorURIPath)
    (har : computeActiveRegex compileOk activeEditor matchArg st.activeRegex = some ar)
    (hsrc : ar.docPath = ed.doc.fsPath) :
    getDec (updateDecorators exec compileOk visible activeEditor matchArg st).rendered ed.id =
      { getDec st.rendered ed.id with
        regexSpans := findMatches exec ar.regex ed.doc st.addGMEnabled } := by
  rw [updateDecorators_enabled exec compileOk visible activeEditor matchArg st hen]
  have hrem : ∀ e ∈ st.decorators.filter
      (fun e => !((getVisibleTextEditors visible).contains e)), e.id ≠ ed.id := by
    intro e he heq
    have hmem := List.mem_filter.1 he
    have heed : e = ed := hid e hmem.1 heq
    subst heed
    have hnotin : e ∉ getVisibleTextEditors visible := by simpa using hmem.2
    exact hnotin hvis
  rw [remove_fold_other _ _ ed.id hrem]
  obtain ⟨l1, l2, hsplit, h1, h2⟩ := nodup_split hvis hnd
  rw [hsplit]
  rw [visit_fold_getDec exec _ _ _ l1 l2 ed _ h1 h2 (by simp [hsup])]
  rw [har]
  show decoratorUpdate exec ed (some ar) st.editorURIPath st.addGMEnabled
      (getDec st.rendered ed.id) =
    { getDec st.rendered ed.id with
      regexSpans := findMatches exec ar.regex ed.doc st.addGMEnabled }
  have hb1 : (ed.doc.fsPath == st.editorURIPath) = false := by
    simp [hnp]
  have hb2 : (ar.docPath == ed.doc.fsPath) = true := by
    simp [hsrc]
  simp only [decoratorUpdate, hb1, hb2, Bool.false_eq_true, if_false, if_true]

theorem c1_sourceViewRendering_witness :
    getDec (updateDecorators execDemo (fun _ _ => true) [previewEditor, srcEditor]
        none (some demoAR) c1State).rendered 1 =
      { getDec c1State.rendered 1 with
        regexSpans := findMatches execDemo demoAR.regex srcDoc c1State.addGMEnabled } :=
  c1_sourceViewRendering execDemo (fun _ _ => true) [previewEditor, srcEditor] none
    (some demoAR) c1State srcEditor demoAR (by decide) (by decide) (by decide)
    (by decide) (by decide) (by decide) (by decide) (by decide)

/-- Claim C1 counterexample: in the concrete scenario the source view's
origin-highlight layer after the recomputation holds the span of the single
match of the pattern against the source text (columns 4 to 6), which is not
the literal's own span (columns 3 to 9), even though findRegexes produced
exactly that literal. -/
theorem c1_literalSpanCounterexample :
    findRegexes (fun _ _ => true) srcDoc = [demoAR] ∧
    (getDec (updateDecorators execDemo (fun _ _ => true) [previewEditor, srcEditor]
        none (some demoAR) c1State).rendered 1).regexSpans = [⟨0, 4, 0, 6⟩] ∧
    ([(⟨0, 4, 0, 6⟩ : Range)] : List Range) ≠ [demoAR.range] := by
  refine ⟨by decide, by decide, by decide⟩

/-- Claim C2 (corrected): with an active regex present, a recomputation
leaves the decoration state of a visible supported view that shows neither
the preview document nor the active regex's source document exactly as it
was — update takes no branch for such a view, so spans rendered by an
earlier recomputation survive on it.  The layers are cleared only when
there is no active regex, or when the view leaves the visible set and its
decorator is disposed. -/
theorem c2_irrelevantViewUntouched
    (exec : JSRegexp → List Char → Nat → Option (Nat × Nat))
    (compileOk : List Char → List Char → Bool)
    (visible : List Editor) (activeEditor : Option Editor)
    (matchArg : Option RegexMatch) (st : ExtState) (ed : Editor) (ar : RegexMatch)
    (hen : isEditorEnabled visible st = true)
    (hvis : ed ∈ getVisibleTextEditors visible)
    (hnd : ((getVisibleTextEditors visible).map Editor.id).Nodup)
    (hid : ∀ e ∈ st.decorators, e.id = ed.id → e = ed)
    (hsup : isLanguageSupported ed.doc = true)
    (hnp : ed.doc.fsPath ≠ st.editorURIPath)
    (har : computeActiveRegex compileOk activeEditor matchArg st.activeRegex = some ar)
    (hsrc : ar.docPath ≠ ed.doc.fsPath) :
    getDec (updateDecorators exec compileOk visible activeEditor matchArg st).rendered ed.id =
      getDec st.rendered ed.id := by
  rw [updateDecorators_enabled exec compileOk visible activeEditor matchArg st hen]
  have hrem : ∀ e ∈ st.decorators.filter
      (fun e => !((getVisibleTextEditors visible).contains e)), e.id ≠ ed.id := by
    intro e he heq
    have hmem := List.mem_filter.1 he
    have heed : e = ed := hid e hmem.1 heq
    subst heed
    have hnotin : e ∉ getVisibleTextEditors visible := by simpa using hmem.2
    exact hnotin hvis
  rw [remove_fold_other _ _ ed.id hrem]
  obtain ⟨l1, l2, hsplit, h1, h2⟩ := nodup_split hvis hnd
  rw [hsplit]
  rw [visit_fold_getDec exec _ _ _ l1 l2 ed _ h1 h2 (by simp [hsup])]
  rw [har]
  show decoratorUpdate exec ed (some ar) st.editorURIPath st.addGMEnabled
      (getDec st.rendered ed.id) = getDec st.rendered ed.id
  have hb1 : (ed.doc.fsPath == st.editorURIPath) = false := by
    simp [hnp]
  have hb2 : (ar.docPath == ed.doc.fsPath) = false := by
    simp [hsrc]
  simp only [decoratorUpdate, hb1, hb2, Bool.false_eq_true, if_false]

theorem c2_irrelevantViewUntouched_witness :
    getDec (updateDecorators execDemo (fun _ _ => true) [previewEditor, srcEditor]
        none none c2State).rendered 1 = getDec c2State.rendered 1 :=
  c2_irrelevantViewUntouched execDemo (fun _ _ => true) [previewEditor, srcEditor] none
    none c2State srcEditor otherAR (by decide) (by decide) (by decide)
    (by decide) (by decide) (by decide) (by decide) (by decide)

/-- Claim C2 counterexample: after a recomputation with an active regex from
another document, the visible non-preview non-source view still carries the
origin-highlight span rendered by the earlier recomputation; its layers are
not empty. -/
theorem c2_staleSpanCounterexample :
    (getDec (updateDecorators execDemo (fun _ _ => true) [previewEditor, srcEditor]
        none none c2State).rendered 1).regexSpans = [⟨0, 3, 0, 9⟩] ∧
    ([(⟨0, 3, 0, 9⟩ : Range)] : List Range) ≠ [] := by
  refine ⟨by decide, by decide⟩

theorem createRegexMatchModel_ok {compileOk : List Char → List Char → Bool}
    {docPath lineNo : Nat} {cand : ScanCand} {m : RegexMatch}
    (h : createRegexMatchModel compileOk docPath lineNo cand = some m) :
    compileOk m.regex.source m.regex.flags = true := by
  unfold createRegexMatchModel at h
  split at h
  · rename_i hc
    simp only [Option.some.injEq] at h
    rw [← h]
    exact hc
  · simp at h

theorem findRegexAtCaretE_ok (compileOk : List Char → List Char → Bool) (ed : Editor) :
    CompiledOk compileOk (findRegexAtCaretE compileOk ed) := by
  simp only [findRegexAtCaretE]
  split
  · rename_i m2 hP
    cases hC : createRegexMatchModel compileOk ed.doc.fsPath ed.caretLine m2 with
    | none => simp [CompiledOk]
    | some m => simpa [CompiledOk] using createRegexMatchModel_ok hC
  · simp [CompiledOk]

/-- Claim C8 (confirmed): a candidate whose pattern and flags the host engine
rejects is silently discarded — createRegexMatch yields nothing for it, so
it is absent from the document-wide enumeration (every enumerated literal
compiled successfully) and from caret tracking (a caret result always
compiled); and updateDecorators preserves the invariant that the active
regex, when present, references a literal that compiled successfully,
whether it came from the caret or from an explicit match argument. -/
theorem c8_compileFailureDiscarded :
    (∀ (compileOk : List Char → List Char → Bool) (docPath lineNo : Nat) (cand : ScanCand),
        compileOk cand.pattern cand.flags = false →
        createRegexMatchModel compileOk docPath lineNo cand = none) ∧
    (∀ (compileOk : List Char → List Char → Bool) (doc : Doc) (m : RegexMatch),
        m ∈ findRegexes compileOk doc → compileOk m.regex.source m.regex.flags = true) ∧
    (∀ (compileOk : List Char → List Char → Bool) (ed : Editor),
        CompiledOk compileOk (findRegexAtCaretE compileOk ed)) ∧
    (∀ (exec : JSRegexp → List Char → Nat → Option (Nat × Nat))
        (compileOk : List Char → List Char → Bool) (visible : List Editor)
        (activeEditor : Option Editor) (matchArg : Option RegexMatch) (st : ExtState),
        CompiledOk compileOk st.activeRegex → CompiledOk compileOk matchArg →
        CompiledOk compileOk
          (updateDecorators exec compileOk visible activeEditor matchArg st).activeRegex) := by
  refine ⟨?_, ?_, findRegexAtCaretE_ok, ?_⟩
  · intro compileOk docPath lineNo cand h
    unfold createRegexMatchModel
    rw [h]
    rfl
  · intro compileOk doc m hm
    unfold findRegexes at hm
    rcases List.mem_flatMap.1 hm with ⟨p, hp, hm2⟩
    unfold findRegexesLine at hm2
    rcases List.mem_filterMap.1 hm2 with ⟨cand, hcand, hc⟩
    exact createRegexMatchModel_ok hc
  · intro exec compileOk visible activeEditor matchArg st hcur harg
    unfold updateDecorators
    split
    · exact hcur
    · show CompiledOk compileOk (computeActiveRegex compileOk activeEditor matchArg st.activeRegex)
      unfold computeActiveRegex
      cases matchArg with
      | some m => exact harg
      | none =>
        cases activeEditor with
        | none => exact hcur
        | some ae =>
          by_cases hsup : isLanguageSupported ae.doc = true
          · simp only [hsup, if_true]
            exact findRegexAtCaretE_ok compileOk ae
          · have hsup' : isLanguageSupported ae.doc = false := by
              simpa using hsup
            simp only [hsup', Bool.false_eq_true, if_false]
            exact hcur

theorem c8_compileFailureDiscarded_witness :
    createRegexMatchModel (fun _ _ => false) 2 0 stdDemoCand = none :=
  c8_compileFailureDiscarded.1 (fun _ _ => false) 2 0 stdDemoCand (by decide)

/-- Claim C9 (code bug): when the document of a tracked view closes, the
handler removes the tracking entry but never clears the rendered layers:
it calls decorators.delete(editor) first, so the subsequent
decorators.get(editor)?.dispose() always sees undefined and the dispose that
would clear both layers never runs.  Concretely, closing the tracked
document leaves the stale origin span rendered while the map entry is
gone. -/
theorem c9_closeLeavesDecorations :
    (onDidCloseDoc 2 closeDemoState).decorators = [] ∧
    (onDidCloseDoc 2 closeDemoState).rendered = closeDemoState.rendered ∧
    getDec (onDidCloseDoc 2 closeDemoState).rendered 1 =
      ⟨[], [⟨0, 3, 0, 9⟩]⟩ ∧
    (⟨[], [⟨0, 3, 0, 9⟩]⟩ : DecState) ≠ DecState.empty := by
  refine ⟨by decide, by decide, by decide, by decide⟩

/-- Claim C10 (confirmed): a recomputation entered without an explicit match
argument leaves the previously selected active regex untouched whenever
there is no focused view or the focused view's document language is
unsupported — the assignment from the caret runs only for a supported
focused view, and no branch clears the value. -/
theorem c10_activeRegexPreserved
    (exec : JSRegexp → List Char → Nat → Option (Nat × Nat))
    (compileOk : List Char → List Char → Bool) (visible : List Editor)
    (activeEditor : Option Editor) (st : ExtState)
    (h : activeEditor = none ∨
      ∃ ae, activeEditor = some ae ∧ isLanguageSupported ae.doc = false) :
    (updateDecorators exec compileOk visible activeEditor none st).activeRegex =
      st.activeRegex := by
  unfold updateDecorators
  split
  · rfl
  · show computeActiveRegex compileOk activeEditor none st.activeRegex = st.activeRegex
    unfold computeActiveRegex
    rcases h with rfl | ⟨ae, rfl, hae⟩
    · rfl
    · simp [hae]

theorem c10_activeRegexPreserved_witness :
    (updateDecorators execDemo (fun _ _ => true) [previewEditor, srcEditor]
        (some previewEditor) none c2State).activeRegex = c2State.activeRegex :=
  c10_activeRegexPreserved execDemo (fun _ _ => true) [previewEditor, srcEditor]
    (some previewEditor) c2State (Or.inr ⟨previewEditor, rfl, by decide⟩)

end RegexPreview

